import Mathlib

/-!
Verification of the learnMSA repository specification against its source.

The definitions below are shallow embeddings of the Python functions in
`learnMSA/msa_hmm/SequenceDataset.py`, `learnMSA/msa_hmm/MsaHmmCell.py` and
`learnMSA/msa_hmm/Align.py`.  Numpy arrays are embedded as Lean lists or as
functions out of `Fin n`; machine floats are embedded as exact rationals or
reals (the claims under study are about the algebraic structure of the
computations, not about rounding); the non-terminating while loops of the
decoder are embedded with explicit fuel.
-/

namespace LearnMSA

/-! ### Numpy primitives used by the embedded code -/

/-- Running prefix sums with a starting accumulator, as computed by `np.cumsum`. -/
def npCumsumFrom (acc : ℕ) : List ℕ → List ℕ
  | [] => []
  | x :: xs => (acc + x) :: npCumsumFrom (acc + x) xs

/-- Embedding of `np.cumsum` on a 1-D array of naturals. -/
def npCumsum (l : List ℕ) : List ℕ := npCumsumFrom 0 l

/-- Embedding of `np.repeat(vals, counts)`: each value is repeated by the
matching count. -/
def npRepeat (vals : List ℕ) (counts : List ℕ) : List ℕ :=
  (List.zipWith (fun v c => List.replicate c v) vals counts).flatten

/-- Embedding of `np.insert(x, ps, v)` for a sorted index list `ps`: before the
entry at original index `i`, as many copies of `v` are inserted as `i` occurs
in `ps`; indices equal to the length append at the end. -/
def npInsert (x : List ℤ) (ps : List ℕ) (v : ℤ) : List ℤ :=
  (x.enum.map (fun p => List.replicate (ps.count p.1) v ++ [p.2])).flatten ++
    List.replicate (ps.count x.length) v

/-- Row-wise variant of `np.insert` used for 2-D kernels: whole rows `v` are
inserted. -/
def npInsertRows (x : List (List ℤ)) (ps : List ℕ) (v : List ℤ) : List (List ℤ) :=
  (x.enum.map (fun p => List.replicate (ps.count p.1) v ++ [p.2])).flatten ++
    List.replicate (ps.count x.length) v

/-- Sorted deduplicated values of a list, as returned by `np.unique`. -/
def npUniqueVals (l : List ℕ) : List ℕ :=
  List.insertionSort (· ≤ ·) l.dedup

/-- First-occurrence indices that `np.unique(l, return_index=True)` returns
alongside the sorted unique values. -/
def npUniqueFirstIdx (l : List ℕ) : List ℕ :=
  (npUniqueVals l).map (fun v => l.indexOf v)

/-- Embedding of `np.intersect1d`: sorted unique values common to both inputs. -/
def npIntersect1d (a b : List ℕ) : List ℕ :=
  List.insertionSort (· ≤ ·) ((a.filter (fun x => decide (x ∈ b))).dedup)

/-- Python `int()` applied to a rational: truncation towards zero. -/
def pyInt (x : ℚ) : ℤ := if 0 ≤ x then ⌊x⌋ else -⌊-x⌋

/-- Embedding of `int(np.ceil(n*0.5))` for a natural `n`. -/
def npCeilHalf (n : ℕ) : ℕ := (⌈(n : ℚ) * (1/2)⌉).toNat

/-! ### SequenceDataset.py: the aligned dataset and its column map (claim C1) -/

/-- The fixed 24-symbol alphabet of `SequenceDataset` (`SequenceDataset.py`,
line 18); index 23 is the gap symbol. -/
def alphabet : List Char := "ARNDCQEGHILKMFPSTWYVXUO-".toList

/-- Embedding of `get_encoded_seq(i, remove_gaps=False)` as used by
`AlignedDataset._get_msa_matrix`: the characters `B`, `Z`, `J` are replaced by
`X`, the gap symbols `-` and `.` are unified to `-`, and each character is
mapped to its index in the alphabet. -/
def get_encoded_seq_aligned (s : List Char) : List ℕ :=
  (s.map (fun ch =>
    if ch = 'B' ∨ ch = 'Z' ∨ ch = 'J' then 'X'
    else if ch = '.' then '-' else ch)).map (fun ch => alphabet.indexOf ch)

/-- The per-row part of the column-map computation of `AlignedDataset.__init__`
(`SequenceDataset.py`, lines 98-100): a 0/1 mask is built by comparing each
matrix entry against `alphabet.index('-') - 1`, prefix sums are taken
(`np.cumsum`), a zero is prepended and differences are taken (`np.diff` of
`np.insert(..., 0, 0)`), and `np.argwhere(...).flatten()` returns the indices
of the nonzero differences. -/
def columnMapRow (row : List ℕ) : List ℕ :=
  let mask := row.map (fun v => if v ≠ alphabet.indexOf '-' - 1 then 1 else 0)
  let cumsum := npCumsum mask
  let diff := List.zipWith (fun a b => a - b) cumsum (0 :: cumsum)
  (diff.enum.filter (fun p => decide (p.2 ≠ 0))).map Prod.fst

/-- An aligned dataset reduced to the data relevant for the column map: the
raw aligned character rows. -/
structure AlignedData where
  rows : List (List Char)

/-- The encoded MSA matrix of `AlignedDataset` (one encoded row per sequence,
gaps retained). -/
def AlignedData.msa_matrix (d : AlignedData) : List (List ℕ) :=
  d.rows.map get_encoded_seq_aligned

/-- The per-sequence lengths (`seq_lens`); for an aligned dataset every row has
the full alignment length. -/
def AlignedData.seq_lens (d : AlignedData) : List ℕ :=
  d.rows.map List.length

/-- The global concatenated column map of `AlignedDataset.__init__`
(`SequenceDataset.py`, line 101). -/
def AlignedData.column_map (d : AlignedData) : List ℕ :=
  (d.msa_matrix.map columnMapRow).flatten

/-- The per-sequence starting offsets into the concatenated column map
(`SequenceDataset.py`, lines 102-104): the cumulative sums of `seq_lens`
shifted right by one with a leading zero. -/
def AlignedData.starting_pos (d : AlignedData) : List ℕ :=
  0 :: (npCumsum d.seq_lens).dropLast

/-- Embedding of `AlignedDataset.get_column_map(i)` (`SequenceDataset.py`,
lines 114-117): the slice of the global column map that belongs to sequence
`i`. -/
def AlignedData.get_column_map (d : AlignedData) (i : ℕ) : List ℕ :=
  ((d.column_map.drop (d.starting_pos.getD i 0)).take (d.seq_lens.getD i 0))

/-- The number of non-gap residues of sequence `i` (gap = alphabet index 23),
the count the specification says the column map has one entry per. -/
def AlignedData.nonGapCount (d : AlignedData) (i : ℕ) : ℕ :=
  (((d.msa_matrix.getD i []).filter (fun v => decide (v ≠ alphabet.indexOf '-'))).length)

/-- A two-sequence aligned dataset whose first sequence contains a gap:
sequences `A-C` and `AAC`. -/
def exAligned : AlignedData := ⟨[['A', '-', 'C'], ['A', 'A', 'C']]⟩

/-! ### Align.py: apply_mods (claims C2, C9) -/

/-- Embedding of `apply_mods` (`Align.py`, lines 654-665) for 1-D kernels:
discarded positions are overwritten with `del_marker`, `expansion_lens[i]`
copies of `insert_value` are inserted before each `pos_expand[i]`, and all
entries still equal to the marker are removed. -/
def apply_mods (x : List ℤ) (pos_expand : List ℕ) (expansion_lens : List ℕ)
    (pos_discard : List ℕ) (insert_value : ℤ) (del_marker : ℤ) : List ℤ :=
  let marked := x.enum.map (fun p => if p.1 ∈ pos_discard then del_marker else p.2)
  let rep_expand_pos := npRepeat pos_expand expansion_lens
  let inserted := npInsert marked rep_expand_pos insert_value
  inserted.filter (fun v => decide (v ≠ del_marker))

/-- Embedding of `apply_mods` for 2-D kernels (the `len(x.shape) == 2` branch
of `Align.py`, lines 661-662): discarded rows are overwritten entirely with the
marker, rows `insert_value` are inserted, and a row is kept iff some entry
differs from the marker. -/
def apply_mods_2d (x : List (List ℤ)) (pos_expand : List ℕ) (expansion_lens : List ℕ)
    (pos_discard : List ℕ) (insert_row : List ℤ) (del_marker : ℤ) : List (List ℤ) :=
  let marked := x.enum.map
    (fun p => if p.1 ∈ pos_discard then List.replicate p.2.length del_marker else p.2)
  let rep_expand_pos := npRepeat pos_expand expansion_lens
  let inserted := npInsertRows marked rep_expand_pos insert_row
  inserted.filter (fun row => decide (∃ v ∈ row, v ≠ del_marker))

/-! ### MsaHmmCell.py: one step of the scaled forward recursion (claim C3) -/

/-- The numeric guard `epsilon = 1e-32` of `MsaHmmCell` (`MsaHmmCell.py`,
line 42), as an exact rational. -/
def msaHmmCellEpsilon : ℚ := 1 / 10 ^ 32

/-- Embedding of `MsaHmmCell.call` (`MsaHmmCell.py`, lines 80-101) for one
model and one batch element, with `q` emitting states.  Numbers are exact
rationals and the logarithm enters the step only as an uninterpreted function
`log`, since the claim under study is purely structural in it.  The state
carried between steps is the scaled forward vector together with the
log-likelihood accumulator.  Modelled from the spec: the transitioner
application `self.transitioner(old_scaled_forward)` lives in `Transitioner.py`,
which is not part of the sources under study; per the specification it is the
dense vector-matrix product `R = F · A` against the transition matrix.  On the
sequence-initial step (`self.init` true) no transition is applied. -/
def MsaHmmCellCall (q : ℕ) (log : ℚ → ℚ) (A : Matrix (Fin q) (Fin q) ℚ)
    (E : Fin q → ℚ) (initFlag : Bool) (st : (Fin q → ℚ) × ℚ) :
    (Fin q → ℚ) × ((Fin q → ℚ) × ℚ) :=
  let R : Fin q → ℚ := if initFlag then st.1 else Matrix.vecMul st.1 A
  let scaled_forward : Fin q → ℚ := fun i => E i * R i
  let S : ℚ := ∑ i, scaled_forward i
  let loglik : ℚ := st.2 + log S
  let new_forward : Fin q → ℚ := fun i => scaled_forward i / S
  (fun i => log (new_forward i + msaHmmCellEpsilon) + loglik,
    (new_forward, loglik))

/-- A concrete one-state transition matrix used to witness the cell-step
theorem. -/
def exA1 : Matrix (Fin 1) (Fin 1) ℚ := Matrix.of fun _ _ => 1

/-- A concrete one-state vector used to witness the cell-step theorem. -/
def exV1 : Fin 1 → ℚ := fun _ => 1

/-! ### Align.py: get_discard_or_expand_positions (claim C4) -/

/-- The decoded-alignment metadata consumed by `get_discard_or_expand_positions`
for one model: `r` repeats, `n` decoded sequences and `cols` insertion columns
(the model length is `cols + 1`).  The fields are the members of
`AlignmentMetaData` that the function reads, plus the summed emission prior
per match column (`em.get_prior_log_density()[model_index]`, already sliced to
model length). -/
structure SurgeryMeta (r n cols : ℕ) where
  insertion_lens : Fin r → Fin n → Fin cols → ℕ
  left_flank_len : Fin n → ℕ
  right_flank_len : Fin n → ℕ
  consensus : Fin r → Fin n → Fin (cols + 1) → ℤ
  finished : Fin r → Fin n → Bool
  prior_val : Fin (cols + 1) → ℚ

/-- The number of sequences finished at repeat `i`
(one summand of `np.sum(finished[:-1], axis=1)`). -/
def finishedEarlyRepeat {r n cols : ℕ} (d : SurgeryMeta r n cols) (i : Fin r) : ℕ :=
  ∑ s, if d.finished i s then 1 else 0

/-- Embedding of `np.sum(finished_early)`: sequences finished in any repeat but
the last (`Align.py`, line 589). -/
def finishedEarlyTotal {r n cols : ℕ} (d : SurgeryMeta r n cols) : ℕ :=
  ∑ i : Fin r, if (i : ℕ) < r - 1 then finishedEarlyRepeat d i else 0

/-- Embedding of `num_repeats = r*n - np.sum(finished_early)` (`Align.py`,
line 590). -/
def numRepeatsD {r n cols : ℕ} (d : SurgeryMeta r n cols) : ℤ :=
  (r : ℤ) * n - finishedEarlyTotal d

/-- Embedding of `ins_frac` (`Align.py`, lines 594-598): the fraction of
insertion openings at the left flank, at each block column, and at the right
flank. -/
def ins_frac {r n cols : ℕ} (d : SurgeryMeta r n cols) : List ℚ :=
  (((∑ s, if 0 < d.left_flank_len s then 1 else 0 : ℕ) : ℚ) / n) ::
    ((List.finRange cols).map (fun j =>
      ((∑ i, ∑ s, if 0 < d.insertion_lens i s j then 1 else 0 : ℕ) : ℚ) /
        (numRepeatsD d : ℚ))) ++
    [((∑ s, if 0 < d.right_flank_len s then 1 else 0 : ℕ) : ℚ) / n]

/-- Embedding of `ins_lens = np.ceil(...)` (`Align.py`, lines 601-606): the
ceiling of the mean insertion length at the left flank, at each block column,
and at the right flank. -/
def ins_lens {r n cols : ℕ} (d : SurgeryMeta r n cols) : List ℤ :=
  ((((∑ s, d.left_flank_len s : ℕ) : ℚ) / n) ::
    ((List.finRange cols).map (fun j =>
      ((∑ i, ∑ s, d.insertion_lens i s j : ℕ) : ℚ) / (numRepeatsD d : ℚ))) ++
    [((∑ s, d.right_flank_len s : ℕ) : ℚ) / n]).map (fun x => ⌈x⌉)

/-- Embedding of `very_long` (`Align.py`, lines 610-615): per position, the
number of sequences with an insertion longer than `ins_long` there, counting a
sequence once even if several of its repeats qualify. -/
def very_long {r n cols : ℕ} (d : SurgeryMeta r n cols) (ins_long : ℕ) : List ℕ :=
  (∑ s, if ins_long < d.left_flank_len s then 1 else 0) ::
    ((List.finRange cols).map (fun j =>
      ∑ s, min (∑ i, if ins_long < d.insertion_lens i s j then 1 else 0) 1)) ++
    [∑ s, if ins_long < d.right_flank_len s then 1 else 0]

/-- Expansion rule A of the surgery decision: the insertion-opening fraction at
position `p` exceeds the threshold `ins_t`. -/
def ruleA {r n cols : ℕ} (d : SurgeryMeta r n cols) (ins_t : ℚ) (p : ℕ) : Prop :=
  ins_t < (ins_frac d).getD p 0

/-- Expansion rule B of the surgery decision: at least `k` hits at position `p`
show an insertion longer than `ins_long`. -/
def ruleB {r n cols : ℕ} (d : SurgeryMeta r n cols) (ins_long k : ℕ) (p : ℕ) : Prop :=
  k ≤ (very_long d ins_long).getD p 0

instance {r n cols : ℕ} (d : SurgeryMeta r n cols) (ins_t : ℚ) (p : ℕ) :
    Decidable (ruleA d ins_t p) := by unfold ruleA; infer_instance

instance {r n cols : ℕ} (d : SurgeryMeta r n cols) (ins_long k p : ℕ) :
    Decidable (ruleB d ins_long k p) := by unfold ruleB; infer_instance

/-- Embedding of `pos_expand1` (`Align.py`, lines 607-608). -/
def pos_expand1 {r n cols : ℕ} (d : SurgeryMeta r n cols) (ins_t : ℚ) : List ℕ :=
  (List.range (cols + 2)).filter (fun p => decide (ruleA d ins_t p))

/-- Embedding of `expansion_lens1` (`Align.py`, line 609). -/
def expansion_lens1 {r n cols : ℕ} (d : SurgeryMeta r n cols) (ins_t : ℚ) : List ℤ :=
  (pos_expand1 d ins_t).map (fun p => (ins_lens d).getD p 0)

/-- Embedding of `pos_expand2` (`Align.py`, lines 616-617). -/
def pos_expand2 {r n cols : ℕ} (d : SurgeryMeta r n cols) (ins_long k : ℕ) : List ℕ :=
  (List.range (cols + 2)).filter (fun p => decide (ruleB d ins_long k p))

/-- Embedding of `expansion_lens2` (`Align.py`, line 618). -/
def expansion_lens2 {r n cols : ℕ} (d : SurgeryMeta r n cols) (ins_long k : ℕ) : List ℤ :=
  List.replicate (pos_expand2 d ins_long k).length (ins_long : ℤ)

/-- Embedding of the overlap resolution of `Align.py`, lines 620-623: the
sorted unique union of the two position vectors, rule B first. -/
def pos_expand {r n cols : ℕ} (d : SurgeryMeta r n cols) (ins_t : ℚ)
    (ins_long k : ℕ) : List ℕ :=
  npUniqueVals (pos_expand2 d ins_long k ++ pos_expand1 d ins_t)

/-- Embedding of the expansion-length selection of `Align.py`, line 623: the
concatenated length array indexed by the first-occurrence indices of
`np.unique`. -/
def expansion_lens {r n cols : ℕ} (d : SurgeryMeta r n cols) (ins_t : ℚ)
    (ins_long k : ℕ) : List ℤ :=
  (npUniqueFirstIdx (pos_expand2 d ins_long k ++ pos_expand1 d ins_t)).map
    (fun idx => (expansion_lens2 d ins_long k ++ expansion_lens1 d ins_t).getD idx 0)

/-- One row of `del_no_finish` (`Align.py`, lines 628-629): the number of gap
entries of repeat `i` at column `c`, with the finished count of the previous
repeat subtracted for repeats past the first. -/
def del_no_finish {r n cols : ℕ} (d : SurgeryMeta r n cols) (i : Fin r)
    (c : Fin (cols + 1)) : ℤ :=
  ((∑ s, if d.consensus i s c = -1 then 1 else 0 : ℕ) : ℤ) -
    (if 0 < (i : ℕ) then
      (finishedEarlyRepeat d ⟨(i : ℕ) - 1, Nat.lt_of_le_of_lt (Nat.sub_le _ _) i.isLt⟩ : ℤ)
    else 0)

/-- Embedding of `del_frac` (`Align.py`, line 630). -/
def del_frac {r n cols : ℕ} (d : SurgeryMeta r n cols) : List ℚ :=
  (List.finRange (cols + 1)).map (fun c =>
    ((∑ i, del_no_finish d i c : ℤ) : ℚ) / (numRepeatsD d : ℚ))

/-- The per-column emission prior values as a list. -/
def priorList {r n cols : ℕ} (d : SurgeryMeta r n cols) : List ℚ :=
  (List.finRange (cols + 1)).map d.prior_val

/-- Embedding of `prior_threshold` (`Align.py`, lines 641-642). -/
def prior_threshold {r n cols : ℕ} (d : SurgeryMeta r n cols)
    (match_prior_threshold : ℚ) : ℚ :=
  (Finset.univ.inf' Finset.univ_nonempty d.prior_val) +
    match_prior_threshold *
      ((Finset.univ.sup' Finset.univ_nonempty d.prior_val) -
        (Finset.univ.inf' Finset.univ_nonempty d.prior_val))

/-- Discard condition (a): the column is gapped in more than `del_t` of hits. -/
def discardGap {r n cols : ℕ} (d : SurgeryMeta r n cols) (del_t : ℚ) (p : ℕ) : Prop :=
  del_t < (del_frac d).getD p 0

/-- Discard condition (b): the column's prior log-density is at or below the
threshold band. -/
def discardPrior {r n cols : ℕ} (d : SurgeryMeta r n cols)
    (match_prior_threshold : ℚ) (p : ℕ) : Prop :=
  (priorList d).getD p 0 ≤ prior_threshold d match_prior_threshold

instance {r n cols : ℕ} (d : SurgeryMeta r n cols) (del_t : ℚ) (p : ℕ) :
    Decidable (discardGap d del_t p) := by unfold discardGap; infer_instance

instance {r n cols : ℕ} (d : SurgeryMeta r n cols) (mpt : ℚ) (p : ℕ) :
    Decidable (discardPrior d mpt p) := by unfold discardPrior; infer_instance

/-- Embedding of `pos_discard1` (`Align.py`, line 631). -/
def pos_discard1 {r n cols : ℕ} (d : SurgeryMeta r n cols) (del_t : ℚ) : List ℕ :=
  (List.range (cols + 1)).filter (fun p => decide (discardGap d del_t p))

/-- Embedding of `pos_discard2` (`Align.py`, line 643). -/
def pos_discard2 {r n cols : ℕ} (d : SurgeryMeta r n cols)
    (match_prior_threshold : ℚ) : List ℕ :=
  (List.range (cols + 1)).filter (fun p => decide (discardPrior d match_prior_threshold p))

/-- Embedding of `pos_discard = np.intersect1d(pos_discard1, pos_discard2)`
(`Align.py`, line 644). -/
def pos_discard {r n cols : ℕ} (d : SurgeryMeta r n cols) (del_t : ℚ)
    (match_prior_threshold : ℚ) : List ℕ :=
  npIntersect1d (pos_discard1 d del_t) (pos_discard2 d match_prior_threshold)

/-- Embedding of `get_discard_or_expand_positions` (`Align.py`, lines 575-646):
the triple of expansion positions, expansion lengths and discard positions. -/
def get_discard_or_expand_positions {r n cols : ℕ} (d : SurgeryMeta r n cols)
    (del_t ins_t match_prior_threshold : ℚ) (ins_long k : ℕ) :
    List ℕ × List ℤ × List ℕ :=
  (pos_expand d ins_t ins_long k, expansion_lens d ins_t ins_long k,
    pos_discard d del_t match_prior_threshold)

/-! ### Align.py: get_full_length_estimate (claim C5) -/

/-- Modelled from the spec: the legacy dense sequence store (`Fasta.py`, not
under `src/`) exposes `sorted_indices`, "a permutation ordering sequences by
ascending length". -/
def sorted_indices (seq_lens : List ℕ) : List ℕ :=
  List.insertionSort (fun i j => seq_lens.getD i 0 ≤ seq_lens.getD j 0)
    (List.range seq_lens.length)

/-- The cut index of `get_full_length_estimate` (`Align.py`, lines 858-859):
`int(min(n*surgery_quantile, max(0, n - min_surgery_seqs)))`. -/
def surgeryK (n : ℕ) (surgery_quantile : ℚ) (min_surgery_seqs : ℕ) : ℤ :=
  pyInt (min ((n : ℚ) * surgery_quantile) (max 0 ((n : ℚ) - min_surgery_seqs)))

/-- Embedding of `get_full_length_estimate` (`Align.py`, lines 855-862): the
tail `sorted_indices[k:]` of the ascending length-sorted index permutation. -/
def get_full_length_estimate (seq_lens : List ℕ) (surgery_quantile : ℚ)
    (min_surgery_seqs : ℕ) : List ℕ :=
  (sorted_indices seq_lens).drop
    (surgeryK seq_lens.length surgery_quantile min_surgery_seqs).toNat

/-! ### Align.py: the surgery-loop controls of fit_and_align (claims C6, C7, C9) -/

/-- The `last_iteration` flag of the surgery loop as seen by round `i`
(`Align.py`, lines 44 and 124): round 0 is final iff `max_surgery_runs == 1`;
round `i+1` is final iff round `i` converged or `i == max_surgery_runs - 2`.
`conv i` abstracts whether every model requested no expansion and no discard in
round `i`. -/
def lastIterationFlag (maxRuns : ℕ) (conv : ℕ → Bool) : ℕ → Bool
  | 0 => maxRuns == 1
  | i + 1 => conv i || (i == maxRuns - 2)

/-- Embedding of the epoch-count selection of `Align.py`, line 59:
`config["epochs"][0 if i==0 else 1 if not last_iteration else 2]`. -/
def epochsThisIteration (epochs : List ℕ) (maxRuns : ℕ) (conv : ℕ → Bool) (i : ℕ) : ℕ :=
  epochs.getD (if i = 0 then 0 else if lastIterationFlag maxRuns conv i = false then 1 else 2) 0

/-- Embedding of the effective batch size of `Align.py`, line 52:
the configured batch size capped at `int(np.ceil(n*0.5))` where `n` is the
total number of sequences in the dataset. -/
def effectiveBatchSize (configured n : ℕ) : ℕ :=
  min configured (npCeilHalf n)

/-- The number of sequences trained on in round `i` (`Align.py`, lines 53-58):
all `n` on a final round, the full-length estimate otherwise. -/
def trainCountForRound (maxRuns : ℕ) (conv : ℕ → Bool) (n fullLenCount i : ℕ) : ℕ :=
  if lastIterationFlag maxRuns conv i then n else fullLenCount

/-- The fatal message raised by `fit_and_align` when surgery shrinks a model
below the minimum length (`Align.py`, line 117). -/
def surgeryCollapseMsg : String :=
  "A problem occured during model surgery: A pHMM is too short (length <= 2)."

/-- Embedding of the per-member length check of the surgery loop (`Align.py`,
lines 115-117): members are processed in order and the first new length below 3
aborts the run. -/
def surgeryLengthCheck : List ℕ → Except String Unit
  | [] => Except.ok ()
  | L :: rest => if L < 3 then Except.error surgeryCollapseMsg else surgeryLengthCheck rest

/-- An expand/discard plan for one ensemble member, together with the dummy
row inserted at expanded positions. -/
structure SurgeryPlan where
  pos_expand : List ℕ
  expansion_lens : List ℕ
  pos_discard : List ℕ
  insert_row : List ℤ

/-- The new model length of a member after surgery (`Align.py`, line 115):
the first axis of the first emission kernel after `apply_mods`. -/
def newModelLength (kernel : List (List ℤ)) (plan : SurgeryPlan) : ℕ :=
  (apply_mods_2d kernel plan.pos_expand plan.expansion_lens plan.pos_discard
    plan.insert_row (-9999)).length

/-- The collapse check of one surgery round over all ensemble members, each
given by its current emission kernel and its edit plan. -/
def surgeryRoundCheck (members : List (List (List ℤ) × SurgeryPlan)) : Except String Unit :=
  surgeryLengthCheck (members.map (fun m => newModelLength m.1 m.2))

/-! ### Align.py: decode_core (claims C8, C10) -/

/-- The match classification of `decode_core` (`Align.py`, line 237):
`(q > 0) & (q < c+1)`. -/
def is_match (c q : ℕ) : Prop := 0 < q ∧ q < c + 1

/-- The insert classification of `decode_core` (`Align.py`, line 238):
`(q >= c+1) & (q < 2*c)`. -/
def is_insert (c q : ℕ) : Prop := c + 1 ≤ q ∧ q < 2 * c

/-- The unannotated classification of `decode_core` (`Align.py`, line 240):
`q == 2*c`. -/
def is_unannotated (c q : ℕ) : Prop := q = 2 * c

/-- The terminal/right-flank classification of `decode_core` (`Align.py`,
line 241): `(q == 2*c+1) | (q == 2*c+2)`. -/
def is_at_end (c q : ℕ) : Prop := q = 2 * c + 1 ∨ q = 2 * c + 2

instance (c q : ℕ) : Decidable (is_match c q) := by unfold is_match; infer_instance

instance (c q : ℕ) : Decidable (is_insert c q) := by unfold is_insert; infer_instance

instance (c q : ℕ) : Decidable (is_unannotated c q) := by unfold is_unannotated; infer_instance

instance (c q : ℕ) : Decidable (is_at_end c q) := by unfold is_at_end; infer_instance

/-- A state code that keeps the cursor of `decode_core` advancing: match or
insert. -/
def is_core (c q : ℕ) : Prop := is_match c q ∨ is_insert c q

/-- A state code at which `decode_core` stops advancing a sequence:
unannotated or terminal/right flank. -/
def is_stop (c q : ℕ) : Prop := is_unannotated c q ∨ is_at_end c q

instance (c q : ℕ) : Decidable (is_core c q) := by unfold is_core; infer_instance

instance (c q : ℕ) : Decidable (is_stop c q) := by unfold is_stop; infer_instance

/-- The mutable state of the `decode_core` while loop: the consensus matrix,
the insertion length and start matrices, the `last_insert` mask and the
per-sequence cursors. -/
structure DecodeCoreState (n : ℕ) where
  consensus : Fin n → ℕ → ℤ
  insertion_lens : Fin n → ℕ → ℤ
  insertion_start : Fin n → ℕ → ℤ
  last_insert : Fin n → Bool
  indices : Fin n → ℕ

/-- The initial state of `decode_core` (`Align.py`, lines 228-233). -/
def decode_core_init (n : ℕ) (indices : Fin n → ℕ) : DecodeCoreState n :=
  ⟨fun _ _ => -1, fun _ _ => 0, fun _ _ => -1, fun _ => false, indices⟩

/-- One iteration of the `decode_core` while loop body (`Align.py`, lines
245-253), given that the break condition did not fire: matches record the
cursor in the consensus, insertions extend the insertion run, the cursors of
match/insert rows advance. -/
def decode_core_step (n c : ℕ) (rows : Fin n → ℕ → ℕ) (st : DecodeCoreState n) :
    DecodeCoreState n :=
  let q : Fin n → ℕ := fun j => rows j (st.indices j)
  { consensus := fun j col =>
      if is_match c (q j) ∧ col = q j - 1 then (st.indices j : ℤ) else st.consensus j col
    insertion_lens := fun j col =>
      if is_insert c (q j) ∧ col = q j - c - 1 then st.insertion_lens j col + 1
      else st.insertion_lens j col
    insertion_start := fun j col =>
      if (is_insert c (q j) ∧ st.last_insert j = false) ∧ col = q j - c - 1 then
        (st.indices j : ℤ)
      else st.insertion_start j col
    last_insert := fun j => decide (is_insert c (q j))
    indices := fun j =>
      if is_match c (q j) ∨ is_insert c (q j) then st.indices j + 1 else st.indices j }

/-- The `decode_core` while loop (`Align.py`, lines 235-253) with explicit
fuel: `none` means the loop did not finish within `fuel` iterations.  The break
fires when every row sits at an unannotated or terminal state, returning the
state and the `finished` mask `~is_unannotated`. -/
def decode_core_loop (n c : ℕ) (rows : Fin n → ℕ → ℕ) :
    ℕ → DecodeCoreState n → Option (DecodeCoreState n × (Fin n → Bool))
  | 0, _ => none
  | fuel + 1, st =>
    if ∀ j, is_stop c (rows j (st.indices j)) then
      some (st, fun j => !decide (is_unannotated c (rows j (st.indices j))))
    else decode_core_loop n c rows fuel (decode_core_step n c rows st)

/-- Embedding of `decode_core` (`Align.py`, lines 210-254): run the loop from
the initial state with the given fuel. -/
def decode_core (n c : ℕ) (rows : Fin n → ℕ → ℕ) (indices : Fin n → ℕ)
    (fuel : ℕ) : Option (DecodeCoreState n × (Fin n → Bool)) :=
  decode_core_loop n c rows fuel (decode_core_init n indices)

/-! ### Helper lemmas -/

/-- The ceiling of half of a natural number computes as `(n+1)/2` in natural
division. -/
theorem npCeilHalf_eq (n : ℕ) : npCeilHalf n = (n + 1) / 2 := by
  unfold npCeilHalf
  rcases Nat.even_or_odd n with ⟨m, hm⟩ | ⟨m, hm⟩ <;> subst hm
  · rw [show ((m + m : ℕ) : ℚ) * (1/2) = (m : ℤ) by push_cast; ring]
    rw [Int.ceil_intCast]
    omega
  · rw [show ((2*m + 1 : ℕ) : ℚ) * (1/2) = 1/2 + (m : ℤ) by push_cast; ring]
    rw [Int.ceil_add_int]
    rw [show (⌈(1/2 : ℚ)⌉ : ℤ) = 1 by rw [Int.ceil_eq_iff]; norm_num]
    omega

/-- The length check of the surgery loop errs with the collapse message iff
some length is below 3, and succeeds iff all lengths are at least 3. -/
theorem surgeryLengthCheck_iff (ls : List ℕ) :
    (surgeryLengthCheck ls = Except.error surgeryCollapseMsg ↔ ∃ L ∈ ls, L < 3) ∧
    (surgeryLengthCheck ls = Except.ok () ↔ ∀ L ∈ ls, 3 ≤ L) := by
  induction ls with
  | nil => simp [surgeryLengthCheck]
  | cons x rest ih =>
    by_cases hx : x < 3 <;>
      simp [surgeryLengthCheck, hx, ih.1, ih.2]; omega

/-- The sorted unique values of the concatenation of two filters of `range m`
form the filter of the disjunction. -/
theorem npUniqueVals_filter_append (pb pa : ℕ → Bool) (m : ℕ) :
    npUniqueVals ((List.range m).filter pb ++ (List.range m).filter pa)
      = (List.range m).filter (fun x => pb x || pa x) := by
  unfold npUniqueVals
  apply List.eq_of_perm_of_sorted ?_ (List.sorted_insertionSort _ _)
    ((List.sorted_le_range m).filter _)
  refine (List.perm_insertionSort _ _).trans ?_
  rw [List.perm_ext_iff_of_nodup (List.nodup_dedup _) ((List.nodup_range m).filter _)]
  intro a
  simp only [List.mem_dedup, List.mem_append, List.mem_filter, List.mem_range,
    Bool.or_eq_true]
  tauto

/-- Selecting from the concatenated length array by the first-occurrence
indices of `np.unique` yields, per unique position, the constant `c` if the
position comes from the first filter and `g` of the position otherwise. -/
theorem npUniqueFirstIdx_map_getD (pb pa : ℕ → Bool) (m : ℕ) (g : ℕ → ℤ) (c : ℤ) :
    ((npUniqueFirstIdx ((List.range m).filter pb ++ (List.range m).filter pa)).map
      (fun idx => (List.replicate ((List.range m).filter pb).length c ++
        ((List.range m).filter pa).map g).getD idx 0))
    = (npUniqueVals ((List.range m).filter pb ++ (List.range m).filter pa)).map
        (fun v => if pb v then c else g v) := by
  unfold npUniqueFirstIdx
  rw [List.map_map]
  apply List.map_congr_left
  intro v hv
  have hvcat : v ∈ (List.range m).filter pb ++ (List.range m).filter pa := by
    have h1 : v ∈ ((List.range m).filter pb ++ (List.range m).filter pa).dedup := by
      have := hv
      unfold npUniqueVals at this
      exact (List.mem_insertionSort _).1 this
    exact List.mem_dedup.1 h1
  simp only [Function.comp_apply]
  by_cases hb : pb v
  · have hmem : v ∈ (List.range m).filter pb := by
      rcases List.mem_append.1 hvcat with h | h
      · exact h
      · exact List.mem_filter.2 ⟨(List.mem_filter.1 h).1, hb⟩
    rw [List.indexOf_append_of_mem hmem]
    have hlt : ((List.range m).filter pb).indexOf v < ((List.range m).filter pb).length :=
      List.indexOf_lt_length.2 hmem
    rw [List.getD_append _ _ _ _ (by rwa [List.length_replicate])]
    rw [List.getD_eq_getElem _ _ (by rwa [List.length_replicate])]
    rw [List.getElem_replicate]
    simp [hb]
  · have hnmem : v ∉ (List.range m).filter pb := by
      intro hmem
      exact hb (List.mem_filter.1 hmem).2
    have hmem : v ∈ (List.range m).filter pa := by
      rcases List.mem_append.1 hvcat with h | h
      · exact absurd h hnmem
      · exact h
    rw [List.indexOf_append_of_not_mem hnmem]
    have hlt : ((List.range m).filter pa).indexOf v < ((List.range m).filter pa).length :=
      List.indexOf_lt_length.2 hmem
    rw [List.getD_append_right _ _ _ _ (by rw [List.length_replicate]; omega)]
    rw [List.length_replicate, Nat.add_sub_cancel_left]
    rw [List.getD_eq_getElem _ _ (by rwa [List.length_map])]
    rw [List.getElem_map]
    rw [List.getElem_indexOf hlt]
    simp [hb]

/-- The sorted unique common values of two filters of `range m` form the
filter of the conjunction. -/
theorem npIntersect1d_filter (pa pb : ℕ → Bool) (m : ℕ) :
    npIntersect1d ((List.range m).filter pa) ((List.range m).filter pb)
      = (List.range m).filter (fun x => pa x && pb x) := by
  unfold npIntersect1d
  apply List.eq_of_perm_of_sorted ?_ (List.sorted_insertionSort _ _)
    ((List.sorted_le_range m).filter _)
  refine (List.perm_insertionSort _ _).trans ?_
  rw [List.perm_ext_iff_of_nodup (List.nodup_dedup _)
    ((List.nodup_range m).filter _)]
  intro a
  simp only [List.mem_dedup, List.mem_filter, List.mem_range, Bool.and_eq_true,
    decide_eq_true_eq]
  tauto

/-- A state code cannot be both advancing (match/insert) and stopping
(unannotated/terminal). -/
theorem is_core_not_stop (c q : ℕ) (h : is_core c q) : ¬ is_stop c q := by
  unfold is_core is_match is_insert at h
  unfold is_stop is_unannotated is_at_end
  omega

/-- The decode-core loop reaches the break within the fuel bound as long as
every cursor sits `t j` core states deep into its row, with a stop state
waiting after `ms j` core states. -/
theorem decode_core_loop_terminates (n c : ℕ) (rows : Fin n → ℕ → ℕ)
    (s ms : Fin n → ℕ)
    (hrows : ∀ j, (∀ t, t < ms j → is_core c (rows j (s j + t))) ∧
      is_stop c (rows j (s j + ms j))) :
    ∀ (fuel : ℕ) (t : Fin n → ℕ) (st : DecodeCoreState n),
      (∀ j, st.indices j = s j + t j) → (∀ j, t j ≤ ms j) →
      (∑ j, (ms j - t j)) < fuel →
      ∃ res, decode_core_loop n c rows fuel st = some res := by
  intro fuel
  induction fuel with
  | zero => intro t st _ _ hlt; exact absurd hlt (by omega)
  | succ fuel ih =>
    intro t st hidx hle hlt
    by_cases hstop : ∀ j, is_stop c (rows j (st.indices j))
    · exact ⟨_, by rw [decode_core_loop, if_pos hstop]⟩
    · rw [decode_core_loop, if_neg hstop]
      push_neg at hstop
      obtain ⟨j0, hj0⟩ := hstop
      have hcore : ∀ j, ¬ is_stop c (rows j (st.indices j)) → t j < ms j := by
        intro j hns
        rcases lt_or_eq_of_le (hle j) with h | h
        · exact h
        · exact absurd (by rw [hidx j, h]; exact (hrows j).2) hns
      refine ih (fun j => if is_core c (rows j (st.indices j)) then t j + 1 else t j)
        (decode_core_step n c rows st) ?_ ?_ ?_
      · intro j
        show (if is_match c (rows j (st.indices j)) ∨ is_insert c (rows j (st.indices j))
          then st.indices j + 1 else st.indices j)
          = s j + (if is_core c (rows j (st.indices j)) then t j + 1 else t j)
        unfold is_core
        by_cases hc : is_match c (rows j (st.indices j)) ∨ is_insert c (rows j (st.indices j))
        · rw [if_pos hc, if_pos hc, hidx j]
          omega
        · rw [if_neg hc, if_neg hc, hidx j]
      · intro j
        show (if is_core c (rows j (st.indices j)) then t j + 1 else t j) ≤ ms j
        by_cases hc : is_core c (rows j (st.indices j))
        · rw [if_pos hc]
          have hns : ¬ is_stop c (rows j (st.indices j)) := is_core_not_stop _ _ hc
          have := hcore j hns
          omega
        · rw [if_neg hc]
          exact hle j
      · show (∑ j, (ms j - (if is_core c (rows j (st.indices j)) then t j + 1 else t j)))
          < fuel
        have hc0 : is_core c (rows j0 (st.indices j0)) := by
          have hlt0 := hcore j0 hj0
          have := (hrows j0).1 (t j0) hlt0
          rwa [← hidx j0] at this
        have hdec : (∑ j, (ms j - (if is_core c (rows j (st.indices j)) then t j + 1 else t j)))
            < ∑ j, (ms j - t j) := by
          apply Finset.sum_lt_sum
          · intro j _
            by_cases hc : is_core c (rows j (st.indices j)) <;> simp [hc] <;> omega
          · refine ⟨j0, Finset.mem_univ _, ?_⟩
            have hlt0 := hcore j0 hj0
            rw [if_pos hc0]
            omega
        omega

/-- With rows that are constantly in the left-flank state 0, the decode-core
loop never reaches its break condition, whatever the fuel and state. -/
theorem decode_core_loop_stuck (fuel : ℕ) :
    ∀ st : DecodeCoreState 1,
      decode_core_loop 1 3 (fun _ _ => 0) fuel st = none := by
  induction fuel with
  | zero => intro st; rfl
  | succ fuel ih =>
    intro st
    rw [decode_core_loop, if_neg]
    · exact ih _
    · intro hall
      have h0 := hall 0
      unfold is_stop is_unannotated is_at_end at h0
      omega

/-! ### Claim C1 -/

/-- Claim C1 (code bug): `get_column_map` is supposed to contain one entry per
non-gap residue.  On the aligned sequences `A-C` and `AAC` the code returns
`[0, 1, 2]` for sequence 0 — the gap column is counted, because line 98 of
`SequenceDataset.py` compares the matrix against `alphabet.index('-') - 1`
(the index 22 of `O`) rather than the gap index 23 — although sequence 0 has
only 2 non-gap residues, so the map demanded by the claim would be `[0, 2]`. -/
theorem C1_column_map_counts_gaps :
    exAligned.get_column_map 0 = [0, 1, 2] ∧ exAligned.nonGapCount 0 = 2 ∧
    exAligned.get_column_map 0 ≠ [0, 2] := by decide

/-! ### Claim C2 -/

/-- Claim C2 counterexample: `apply_mods` on `x = [1,2,3,4,5]` with
`pos_expand = [2]`, `expansion_lens = [1]`, `pos_discard = [0]`,
`insert_value = 9`, `del_marker = -9999` does not return `[2,3,9,4,5]`. -/
theorem C2_counterexample :
    apply_mods [1, 2, 3, 4, 5] [2] [1] [0] 9 (-9999) ≠ [2, 3, 9, 4, 5] := by decide

/-- Claim C2 amended: the call returns `[2,9,3,4,5]` — position 0 is dropped
and one `9` is inserted immediately before original index 2 (the entry `3`). -/
theorem C2_apply_mods_eval :
    apply_mods [1, 2, 3, 4, 5] [2] [1] [0] 9 (-9999) = [2, 9, 3, 4, 5] := by decide

/-! ### Claim C4 -/

/-- Claim C4: `get_discard_or_expand_positions` returns as expansion positions
the sorted deduplicated union of the rule-A positions (insertion-opening
fraction above `ins_t`) and the rule-B positions (at least `k` hits with an
insertion longer than `ins_long`); the expansion length is the fixed `ins_long`
wherever rule B fires (in particular where both rules fire) and the ceiled mean
insertion length otherwise; and it returns as discard positions the sorted
intersection of the frequently-gapped columns and the low-prior columns. -/
theorem C4_discard_or_expand {r n cols : ℕ} (d : SurgeryMeta r n cols)
    (del_t ins_t match_prior_threshold : ℚ) (ins_long k : ℕ) :
    (get_discard_or_expand_positions d del_t ins_t match_prior_threshold ins_long k).1
      = (List.range (cols + 2)).filter
          (fun p => decide (ruleA d ins_t p ∨ ruleB d ins_long k p)) ∧
    (get_discard_or_expand_positions d del_t ins_t match_prior_threshold ins_long k).2.1
      = (get_discard_or_expand_positions d del_t ins_t match_prior_threshold ins_long k).1.map
          (fun p => if ruleB d ins_long k p then (ins_long : ℤ) else (ins_lens d).getD p 0) ∧
    (get_discard_or_expand_positions d del_t ins_t match_prior_threshold ins_long k).2.2
      = (List.range (cols + 1)).filter
          (fun p => decide (discardGap d del_t p ∧ discardPrior d match_prior_threshold p)) := by
  refine ⟨?_, ?_, ?_⟩
  · show pos_expand d ins_t ins_long k = _
    unfold pos_expand pos_expand1 pos_expand2
    rw [npUniqueVals_filter_append]
    apply List.filter_congr
    intro x _
    by_cases ha : ruleA d ins_t x <;> by_cases hb : ruleB d ins_long k x <;>
      simp [ha, hb]
  · show expansion_lens d ins_t ins_long k
      = (pos_expand d ins_t ins_long k).map _
    unfold expansion_lens expansion_lens1 expansion_lens2 pos_expand
    unfold pos_expand1 pos_expand2
    rw [npUniqueFirstIdx_map_getD]
    apply List.map_congr_left
    intro v _
    by_cases hb : ruleB d ins_long k v <;> simp [hb]
  · show pos_discard d del_t match_prior_threshold = _
    unfold pos_discard pos_discard1 pos_discard2
    rw [npIntersect1d_filter]
    apply List.filter_congr
    intro x _
    by_cases ha : discardGap d del_t x <;>
      by_cases hb : discardPrior d match_prior_threshold x <;> simp [ha, hb]

/-! ### Claim C5 -/

/-- Claim C5 counterexample: for 10 sequences of lengths 1..10 with
`surgery_quantile = 1/5` and `min_surgery_seqs = 3`, the cut index is
`k = min(10·(1/5), max(0, 10-3)) = 2`, yet `get_full_length_estimate` returns
8 indices (it drops the `k` shortest), not the `k = 2` longest sequences the
claim states. -/
theorem C5_counterexample :
    surgeryK 10 (1/5) 3 = 2 ∧
    (get_full_length_estimate [1, 2, 3, 4, 5, 6, 7, 8, 9, 10] (1/5) 3).length = 8 ∧
    (get_full_length_estimate [1, 2, 3, 4, 5, 6, 7, 8, 9, 10] (1/5) 3).length ≠ 2 := by
  have hk : surgeryK 10 (1/5) 3 = 2 := by
    unfold surgeryK pyInt
    rw [show ((10 : ℕ) : ℚ) * (1/5) = 2 by norm_num]
    rw [show max (0 : ℚ) (((10 : ℕ) : ℚ) - (3 : ℕ)) = 7 by
      rw [max_eq_right] <;> norm_num]
    rw [show min (2 : ℚ) 7 = 2 by rw [min_eq_left]; norm_num]
    rw [if_pos (by norm_num)]
    rw [show (2 : ℚ) = ((2 : ℤ) : ℚ) by norm_num, Int.floor_intCast]
  have hlen : (get_full_length_estimate [1, 2, 3, 4, 5, 6, 7, 8, 9, 10] (1/5) 3).length = 8 := by
    show ((sorted_indices [1, 2, 3, 4, 5, 6, 7, 8, 9, 10]).drop
      (surgeryK 10 (1/5) 3).toNat).length = 8
    rw [hk]
    decide
  exact ⟨hk, hlen, by omega⟩

/-- Claim C5 amended: `get_full_length_estimate` drops the `k` shortest
entries of the ascending length-sorted index permutation, returning the
`n - k` longest sequences: its result is `sorted_indices[k:]`, its size is
`n - k`, and every kept index has length at least that of every dropped
index. -/
theorem C5_full_length_estimate (seq_lens : List ℕ) (q : ℚ) (m : ℕ) :
    get_full_length_estimate seq_lens q m
      = (sorted_indices seq_lens).drop (surgeryK seq_lens.length q m).toNat ∧
    (get_full_length_estimate seq_lens q m).length
      = seq_lens.length - (surgeryK seq_lens.length q m).toNat ∧
    (∀ a ∈ (sorted_indices seq_lens).take (surgeryK seq_lens.length q m).toNat,
      ∀ b ∈ get_full_length_estimate seq_lens q m,
        seq_lens.getD a 0 ≤ seq_lens.getD b 0) := by
  have hlen : (sorted_indices seq_lens).length = seq_lens.length := by
    unfold sorted_indices
    rw [List.length_insertionSort, List.length_range]
  refine ⟨rfl, ?_, ?_⟩
  · show ((sorted_indices seq_lens).drop _).length = _
    rw [List.length_drop, hlen]
  · haveI : IsTotal ℕ (fun i j => seq_lens.getD i 0 ≤ seq_lens.getD j 0) :=
      ⟨fun a b => le_total _ _⟩
    haveI : IsTrans ℕ (fun i j => seq_lens.getD i 0 ≤ seq_lens.getD j 0) :=
      ⟨fun a b c hab hbc => le_trans hab hbc⟩
    have hs : List.Sorted (fun i j => seq_lens.getD i 0 ≤ seq_lens.getD j 0)
        (sorted_indices seq_lens) := List.sorted_insertionSort _ _
    have hsplit := List.take_append_drop (surgeryK seq_lens.length q m).toNat
      (sorted_indices seq_lens)
    rw [← hsplit] at hs
    have h := (List.pairwise_append.1 hs).2.2
    intro a ha b hb
    exact h a ha b hb

/-- Witness for C5 at a concrete two-sequence input: the kept index has a
length at least that of the dropped index. -/
theorem C5_witness : ([5, 1] : List ℕ).getD 1 0 ≤ ([5, 1] : List ℕ).getD 0 0 := by
  have hk : surgeryK ([5, 1] : List ℕ).length (1/2) 0 = 1 := by
    show surgeryK 2 (1/2) 0 = 1
    unfold surgeryK pyInt
    rw [show ((2 : ℕ) : ℚ) * (1/2) = 1 by norm_num]
    rw [show max (0 : ℚ) (((2 : ℕ) : ℚ) - ((0 : ℕ) : ℚ)) = 2 by
      rw [max_eq_right] <;> norm_num]
    rw [show min (1 : ℚ) 2 = 1 by rw [min_eq_left]; norm_num]
    rw [if_pos (by norm_num)]
    rw [show (1 : ℚ) = ((1 : ℤ) : ℚ) by norm_num, Int.floor_intCast]
  refine (C5_full_length_estimate [5, 1] (1/2) 0).2.2 1 ?_ 0 ?_
  · rw [hk]
    decide
  · show (0 : ℕ) ∈ (sorted_indices [5, 1]).drop (surgeryK ([5, 1] : List ℕ).length (1/2) 0).toNat
    rw [hk]
    decide

/-! ### Claim C3 -/

/-- Claim C3: after the sequence-initial step, one cell step computes the new
scaled forward vector as the componentwise product of the emissions with the
transition-multiplied previous vector, divided by its state-axis sum `S` (so
the new vector sums to 1); the accumulator becomes `ll + log S`; the emitted
output is `log(F + eps) + ll` with `eps = 1e-32`; and on the sequence-initial
step the transition matrix is not applied. -/
theorem C3_cell_step (q : ℕ) (log : ℚ → ℚ) (A : Matrix (Fin q) (Fin q) ℚ)
    (E F : Fin q → ℚ) (ll S : ℚ)
    (hS_def : S = ∑ i, E i * Matrix.vecMul F A i) (hS : S ≠ 0) :
    (∀ i, (MsaHmmCellCall q log A E false (F, ll)).2.1 i
        = E i * Matrix.vecMul F A i / S) ∧
    (∑ i, (MsaHmmCellCall q log A E false (F, ll)).2.1 i = 1) ∧
    ((MsaHmmCellCall q log A E false (F, ll)).2.2 = ll + log S) ∧
    (∀ i, (MsaHmmCellCall q log A E false (F, ll)).1 i
        = log ((MsaHmmCellCall q log A E false (F, ll)).2.1 i + msaHmmCellEpsilon)
            + (MsaHmmCellCall q log A E false (F, ll)).2.2) ∧
    (∀ i, (MsaHmmCellCall q log A E true (F, ll)).2.1 i
        = E i * F i / (∑ j, E j * F j)) := by
  subst hS_def
  refine ⟨fun i => rfl, ?_, rfl, fun i => rfl, fun i => rfl⟩
  show (∑ i, (E i * Matrix.vecMul F A i) / (∑ j, E j * Matrix.vecMul F A j)) = 1
  rw [← Finset.sum_div]
  exact div_self hS

/-- Witness for C3: a one-state cell with unit emissions and transitions has a
nonzero scale sum, and the scaled forward vector after the step sums to 1. -/
theorem C3_witness :
    ((1 : ℚ) = ∑ i, exV1 i * Matrix.vecMul exV1 exA1 i) ∧
    (∑ i, (MsaHmmCellCall 1 (fun _ => 0) exA1 exV1 false (exV1, 0)).2.1 i = 1) := by
  have hdef : (1 : ℚ) = ∑ i, exV1 i * Matrix.vecMul exV1 exA1 i := by
    simp [exV1, exA1, Matrix.vecMul, Matrix.dotProduct]
  exact ⟨hdef,
    (C3_cell_step 1 (fun _ => 0) exA1 exV1 exV1 0 1 hdef (by norm_num)).2.1⟩

/-! ### Claim C6 -/

/-- Claim C6 counterexample: when `max_surgery_runs = 1`, round 0 is the final
round, yet with the schedule `[5, 6, 7]` the round trains for 5 epochs (slot 0)
rather than the 7 epochs (slot 2) the claim requires for a final round. -/
theorem C6_counterexample :
    lastIterationFlag 1 (fun _ => false) 0 = true ∧
    epochsThisIteration [5, 6, 7] 1 (fun _ => false) 0 = 5 ∧
    epochsThisIteration [5, 6, 7] 1 (fun _ => false) 0 ≠ 7 := by decide

/-- Claim C6 amended: the epoch count is slot 0 whenever the round index is 0 —
even when round 0 is the final round — and for later rounds slot 2 on a final
round and slot 1 otherwise. -/
theorem C6_epochs_schedule (epochs : List ℕ) (maxRuns : ℕ) (conv : ℕ → Bool) (i : ℕ) :
    (i = 0 → epochsThisIteration epochs maxRuns conv i = epochs.getD 0 0) ∧
    (i ≠ 0 → lastIterationFlag maxRuns conv i = true →
      epochsThisIteration epochs maxRuns conv i = epochs.getD 2 0) ∧
    (i ≠ 0 → lastIterationFlag maxRuns conv i = false →
      epochsThisIteration epochs maxRuns conv i = epochs.getD 1 0) := by
  refine ⟨fun h => by simp [epochsThisIteration, h],
    fun h hl => by simp [epochsThisIteration, h, hl],
    fun h hl => by simp [epochsThisIteration, h, hl]⟩

/-- Witness for C6: a non-initial final round (round 1 of 3, after
convergence) trains for the slot-2 epoch count. -/
theorem C6_witness : epochsThisIteration [5, 6, 7] 3 (fun _ => true) 1 = 7 :=
  (C6_epochs_schedule [5, 6, 7] 3 (fun _ => true) 1).2.1 (by decide) (by decide)

/-! ### Claim C7 -/

/-- Claim C7 counterexample: in a non-final round of a 10-sequence run whose
full-length estimate has 5 sequences, a configured batch size of 5 passes the
cap `ceil(0.5·10) = 5` unchanged, exceeding `ceil(0.5·5) = 3` — the bound the
claim states for the number of sequences actually trained on. -/
theorem C7_counterexample :
    lastIterationFlag 3 (fun _ => false) 0 = false ∧
    trainCountForRound 3 (fun _ => false) 10 5 0 = 5 ∧
    effectiveBatchSize 5 10 = 5 ∧
    ¬(effectiveBatchSize 5 10 ≤
        npCeilHalf (trainCountForRound 3 (fun _ => false) 10 5 0)) := by
  refine ⟨by decide, by decide, ?_, ?_⟩ <;>
    simp [effectiveBatchSize, trainCountForRound, lastIterationFlag, npCeilHalf_eq]

/-- Claim C7 amended: the effective batch size is capped at `ceil(0.5·n)` with
`n` the total dataset size; since a final round trains on all `n` sequences,
the claimed bound does hold on final rounds. -/
theorem C7_batch_cap (configured n maxRuns fullLenCount i : ℕ) (conv : ℕ → Bool) :
    effectiveBatchSize configured n ≤ npCeilHalf n ∧
    (lastIterationFlag maxRuns conv i = true →
      effectiveBatchSize configured n ≤
        npCeilHalf (trainCountForRound maxRuns conv n fullLenCount i)) := by
  refine ⟨min_le_right _ _, fun h => ?_⟩
  simp only [trainCountForRound, h, if_pos]
  exact min_le_right _ _

/-- Witness for C7: on the sole (hence final) round of a single-round run the
cap is met. -/
theorem C7_witness :
    effectiveBatchSize 4 10 ≤ npCeilHalf (trainCountForRound 1 (fun _ => false) 10 5 0) :=
  (C7_batch_cap 4 10 1 5 0 (fun _ => false)).2 (by decide)

/-! ### Claim C8 -/

/-- Claim C8: for every model length `L ≥ 3` and state code `q ∈ [1, 2L+2]`,
the classification predicates of `decode_core` realize exactly the buckets
match `[1, L]`, insert `[L+1, 2L-1]`, unannotated `{2L}`, terminal/right-flank
`{2L+1, 2L+2}`; the buckets are pairwise disjoint and jointly cover the
range. -/
theorem C8_state_buckets (L q : ℕ) (hL : 3 ≤ L) (h1 : 1 ≤ q) (h2 : q ≤ 2 * L + 2) :
    (is_match L q ∨ is_insert L q ∨ is_unannotated L q ∨ is_at_end L q) ∧
    (is_match L q ↔ 1 ≤ q ∧ q ≤ L) ∧
    (is_insert L q ↔ L + 1 ≤ q ∧ q ≤ 2 * L - 1) ∧
    (is_unannotated L q ↔ q = 2 * L) ∧
    (is_at_end L q ↔ q = 2 * L + 1 ∨ q = 2 * L + 2) ∧
    ¬(is_match L q ∧ is_insert L q) ∧ ¬(is_match L q ∧ is_unannotated L q) ∧
    ¬(is_match L q ∧ is_at_end L q) ∧ ¬(is_insert L q ∧ is_unannotated L q) ∧
    ¬(is_insert L q ∧ is_at_end L q) ∧ ¬(is_unannotated L q ∧ is_at_end L q) := by
  unfold is_match is_insert is_unannotated is_at_end
  omega

/-- Witness for C8: the concrete code 1 of a length-3 model is classified. -/
theorem C8_witness :
    is_match 3 1 ∨ is_insert 3 1 ∨ is_unannotated 3 1 ∨ is_at_end 3 1 :=
  (C8_state_buckets 3 1 (by norm_num) (by norm_num) (by norm_num)).1

/-! ### Claim C9 -/

/-- Claim C9: applying every member's expand/discard plan, the surgery round
aborts with the fatal collapse error iff some member's new model length (the
row count of its first emission kernel after `apply_mods`) is strictly below 3,
and succeeds — the loop continues — iff every member's new length is at
least 3. -/
theorem C9_model_collapse (members : List (List (List ℤ) × SurgeryPlan)) :
    (surgeryRoundCheck members = Except.error surgeryCollapseMsg ↔
      ∃ m ∈ members, newModelLength m.1 m.2 < 3) ∧
    (surgeryRoundCheck members = Except.ok () ↔
      ∀ m ∈ members, 3 ≤ newModelLength m.1 m.2) := by
  have h := surgeryLengthCheck_iff (members.map (fun m => newModelLength m.1 m.2))
  unfold surgeryRoundCheck
  constructor
  · rw [h.1]
    constructor
    · rintro ⟨L, hL, hlt⟩
      rcases List.mem_map.1 hL with ⟨m, hm, rfl⟩
      exact ⟨m, hm, hlt⟩
    · rintro ⟨m, hm, hlt⟩
      exact ⟨_, List.mem_map_of_mem _ hm, hlt⟩
  · rw [h.2]
    constructor
    · intro hall m hm
      exact hall _ (List.mem_map_of_mem _ hm)
    · intro hall L hL
      rcases List.mem_map.1 hL with ⟨m, hm, rfl⟩
      exact hall m hm

/-- Witness for C9: a single member of post-surgery length 3 passes the
check. -/
theorem C9_witness :
    surgeryRoundCheck [([[1], [2], [3]], ⟨[], [], [], [7]⟩)] = Except.ok () :=
  (C9_model_collapse [([[1], [2], [3]], ⟨[], [], [], [7]⟩)]).2.2 (by decide)

/-! ### Claim C10 -/

/-- Claim C10: `decode_core` terminates — within fuel `(sum of the core run
lengths) + 1` — for every state-path matrix whose rows, read from their start
cursors, consist of finitely many match/insert states followed by an
unannotated or terminal/right-flank state; and conversely, on an input whose
sole active row is stuck in the left-flank state 0 (so not all rows sit at a
stop state, and the cursor is never advanced), `decode_core` does not terminate
for any fuel. -/
theorem C10_decode_core_termination :
    (∀ (n c : ℕ) (rows : Fin n → ℕ → ℕ) (indices ms : Fin n → ℕ),
      (∀ j, (∀ t, t < ms j → is_core c (rows j (indices j + t))) ∧
        is_stop c (rows j (indices j + ms j))) →
      ∃ res, decode_core n c rows indices ((∑ j, ms j) + 1) = some res) ∧
    (∀ fuel, decode_core 1 3 (fun _ _ => 0) (fun _ => 0) fuel = none) := by
  constructor
  · intro n c rows indices ms h
    unfold decode_core
    apply decode_core_loop_terminates n c rows indices ms h ((∑ j, ms j) + 1)
      (fun _ => 0) (decode_core_init n indices) (fun _ => rfl)
      (fun j => Nat.zero_le _)
    simp only [Nat.sub_zero]
    omega
  · intro fuel
    exact decode_core_loop_stuck fuel _

/-- Witness for C10: a single sequence whose path is one match state followed
by the unannotated state of a length-3 model decodes successfully. -/
theorem C10_witness :
    ∃ res, decode_core 1 3 (fun _ t => if t = 0 then 1 else 6) (fun _ => 0)
      ((∑ j : Fin 1, (fun _ => 1 : Fin 1 → ℕ) j) + 1) = some res := by
  apply C10_decode_core_termination.1 1 3 (fun _ t => if t = 0 then 1 else 6)
    (fun _ => 0) (fun _ => 1)
  intro j
  constructor
  · intro t ht
    have ht0 : t = 0 := by omega
    subst ht0
    decide
  · decide

end LearnMSA
